import Mathlib

/-!
Verification of the move-quality analysis subsystem (`src/stockfish.ts`).

The development shallowly embeds the analysis pipeline: UCI score-line
parsing (`parseScoreFromInfoLine`), the bestmove-token extraction regex,
the per-search line-consumption loop of `evalPosition`, the centipawn-loss
arithmetic and `cplToMoveScore` step mapping of `analyze`, the accuracy
aggregation, and a trace-producing model of the `analyze` control flow
driven by an oracle of engine output lines (one episode per registered
line-waiter) and an external move-application capability (chess.js).
-/

namespace ChessAnalysis

/-! ## Score parsing: `parseScoreFromInfoLine` -/

/-- Longest run of ASCII digits at the head of the list, plus the rest
(the greedy regex fragment matching a digit run). -/
def takeDigits : List Char → List Char × List Char
  | [] => ([], [])
  | c :: cs =>
    if c.isDigit then
      let (ds, r) := takeDigits cs
      (c :: ds, r)
    else ([], c :: cs)

/-- Decimal value of a digit run, as `parseInt` computes it. -/
def digitsVal (ds : List Char) : Nat :=
  ds.foldl (fun a c => 10 * a + (c.toNat - 48)) 0

/-- Match the regex fragment matching an optional minus sign followed by
one or more digits at the current position, returning the parsed integer. -/
def matchIntAt (l : List Char) : Option Int :=
  match l with
  | [] => none
  | c :: cs =>
    if c = '-' then
      let (ds, _) := takeDigits cs
      if ds = [] then none else some (-(digitsVal ds : Int))
    else
      let (ds, _) := takeDigits (c :: cs)
      if ds = [] then none else some ((digitsVal ds : Int))

/-- Strip a literal character sequence from the head of the list. -/
def stripLit : List Char → List Char → Option (List Char)
  | [], l => some l
  | _ :: _, [] => none
  | p :: ps, c :: cs => if c = p then stripLit ps cs else none

/-- Test whether one string starts with another, as JS `startsWith`
does (computable list-level form). -/
def startsWithStr (s pat : String) : Bool :=
  pat.data.isPrefixOf s.data

/-- Strip leading and trailing whitespace, as JS `trim` does on the
engine's output lines (computable list-level form). -/
def trimStr (s : String) : String :=
  String.mk
    (((s.data.dropWhile Char.isWhitespace).reverse.dropWhile
        Char.isWhitespace).reverse)

/-- Literal part of the centipawn score pattern. -/
def scoreCpPat : List Char := "score cp ".data

/-- Literal part of the mate score pattern. -/
def scoreMatePat : List Char := "score mate ".data

/-- Match the centipawn pattern at the current position. -/
def matchCpAt (l : List Char) : Option Int :=
  (stripLit scoreCpPat l).bind matchIntAt

/-- Match the mate pattern at the current position, yielding the raw
mate distance. -/
def matchMateAt (l : List Char) : Option Int :=
  (stripLit scoreMatePat l).bind matchIntAt

/-- Scan positions left to right and return the first successful match,
as an unanchored regex search does. -/
def scanFor (f : List Char → Option Int) : List Char → Option Int
  | [] => f []
  | c :: cs =>
    match f (c :: cs) with
    | some v => some v
    | none => scanFor f cs

/-- Conversion of a mate distance to a large centipawn value:
`sign * (100000 - |mateDistance|)` with `sign = 1` when
`mateDistance >= 0` and `-1` otherwise, as in the source. -/
def mateToScore (mateDistance : Int) : Int :=
  let sign : Int := if 0 ≤ mateDistance then 1 else -1
  let mag : Int := 100000 - (mateDistance.natAbs : Int)
  sign * mag

/-- Core of `parseScoreFromInfoLine` on character lists: first try the
centipawn pattern anywhere in the line, then the mate pattern. -/
def parseScoreCore (l : List Char) : Option Int :=
  match scanFor matchCpAt l with
  | some v => some v
  | none =>
    match scanFor matchMateAt l with
    | some n => some (mateToScore n)
    | none => none

/-- Embedding of `parseScoreFromInfoLine` from `src/stockfish.ts`. -/
def parseScoreFromInfoLine (line : String) : Option Int :=
  parseScoreCore line.data

/-! ## Bestmove extraction: the regex match on the terminal line -/

/-- Character class for a board file letter. -/
def isFileChar (c : Char) : Bool := 'a' ≤ c && c ≤ 'h'

/-- Character class for a board rank digit. -/
def isRankChar (c : Char) : Bool := '1' ≤ c && c ≤ '8'

/-- Character class of the fourth, optional token character in the
source's bestmove regex: a single class mixing rank digits and
promotion letters. -/
def isOpt4Char (c : Char) : Bool :=
  isRankChar c || c = 'q' || c = 'r' || c = 'b' || c = 'n'

/-- Word character in the regex word-boundary sense. -/
def isWordChar (c : Char) : Bool := c.isAlphanum || c = '_'

/-- Match the capture group of the bestmove regex at the current
position: file, rank, file, then an optional character from the mixed
rank-or-promotion class, followed by a word boundary.  Backtracking note:
when the optional character is present but followed by a word character,
dropping the optional character cannot help, since every character of the
optional class is itself a word character. -/
def bmTokenAt (l : List Char) : Option (List Char) :=
  match l with
  | c1 :: c2 :: c3 :: rest =>
    if isFileChar c1 && isRankChar c2 && isFileChar c3 then
      match rest with
      | [] => some [c1, c2, c3]
      | c4 :: rest2 =>
        if isOpt4Char c4 then
          match rest2 with
          | [] => some [c1, c2, c3, c4]
          | c5 :: _ => if isWordChar c5 then none else some [c1, c2, c3, c4]
        else if isWordChar c4 then none else some [c1, c2, c3]
    else none
  | _ => none

/-- Embedding of the bestmove-extraction step of `analyze`: the anchored
match of the source's bestmove regex against the terminal line, yielding
`bestMoveUci` when the line matches. -/
def extractBestMove (line : String) : Option String :=
  match stripLit "bestmove".data line.data with
  | none => none
  | some rest =>
    match rest with
    | [] => none
    | c :: cs =>
      if c.isWhitespace then
        (bmTokenAt ((c :: cs).dropWhile Char.isWhitespace)).map
          (fun t => String.mk t)
      else none

/-! ## Scoring arithmetic -/

/-- Embedding of `cplToMoveScore` from `src/stockfish.ts`. -/
def cplToMoveScore (cpl : ℚ) : ℚ :=
  if cpl ≤ 10 then 1.0
  else if cpl ≤ 30 then 0.95
  else if cpl ≤ 60 then 0.80
  else if cpl ≤ 100 then 0.60
  else if cpl ≤ 200 then 0.30
  else 0.10

/-- Side to move before a played move. -/
inductive Side
  | w
  | b
deriving DecidableEq

/-- Embedding of the `playerMultiplier` computation of `analyze`. -/
def playerMultiplierOf (turnBefore : Side) : Int :=
  if turnBefore = Side.w then 1 else -1

/-- Embedding of the centipawn-loss arithmetic of `analyze`: both
evaluations are multiplied by the mover's multiplier, their difference is
taken and clamped at zero from below. -/
def centipawnLoss (evalBest evalPlayed : Int) (turnBefore : Side) : Int :=
  let playerMultiplier := playerMultiplierOf turnBefore
  let evalBestPersp := evalBest * playerMultiplier
  let evalPlayedPersp := evalPlayed * playerMultiplier
  let cpl := evalBestPersp - evalPlayedPersp
  if cpl < 0 then 0 else cpl

/-- Embedding of the accuracy aggregation of `analyze`: zero for an empty
score list, otherwise the `reduce`-sum divided by the length, scaled by
100. -/
def accuracy (scores : List ℚ) : ℚ :=
  if scores.length = 0 then 0
  else (scores.foldl (fun s m => s + m) 0 / (scores.length : ℚ)) * 100

/-! ## The analysis model

The control flow of `analyze` is modelled as a deterministic function of
an oracle: a list of line "episodes", one per registered line-waiter, in
registration order, each holding the raw lines the engine streams while
that waiter is registered (an exhausted episode is a timeout).  Move
application by chess.js is an external capability, modelled as a
function argument.  The model also emits a trace of session events. -/

/-- One replayed move of the game, as `analyze` builds `moveRecords`. -/
structure MoveRec where
  moveSan : String
  fromFen : String
  toFen : String
  turnBefore : Side
deriving DecidableEq

/-- One scored move, as `analyze` pushes onto `moveScores`. -/
structure MoveScoreR where
  idx : Nat
  move : String
  cpl : Int
  score : ℚ
deriving DecidableEq

/-- Session events: commands written to the engine, waiter registration
and clearing, and lines delivered to the registered waiter. -/
inductive Ev
  | cmd (s : String)
  | reg
  | line (l : String)
  | clear
deriving DecidableEq

/-- Errors raised by `analyze`: the `waitForLineMatching` timeout and the
`evalPosition` timeout. -/
inductive AErr
  | waitTimeout
  | evalTimeout
deriving DecidableEq

/-- Outcome of processing one move record. -/
inductive StepRes
  | fail (e : AErr)
  | skip
  | scored (s : MoveScoreR)
deriving DecidableEq

/-- Pop the next waiter episode off the oracle; an exhausted oracle
yields an empty episode (a timeout). -/
def popEp : List (List String) → List String × List (List String)
  | [] => ([], [])
  | e :: es => (e, es)

/-- The single-waiter scan of `waitForLineMatching`: each delivered line
is tested against the predicate; the first satisfying line resolves the
wait.  Returns the result and the lines consumed by the waiter. -/
def waitScan (p : String → Bool) : List String → Option String × List String
  | [] => (none, [])
  | l :: ls =>
    if p l then (some l, [l])
    else ((waitScan p ls).1, l :: (waitScan p ls).2)

/-- One step of the `evalPosition` line handler: any line carrying a
parsable score overwrites the running last score; others leave it
unchanged. -/
def updateScore (acc : Option Int) (line : String) : Option Int :=
  match parseScoreFromInfoLine line with
  | some s => some s
  | none => acc

/-- The line-consumption loop of `evalPosition`: parse each line for a
score (updating the running last score), and resolve on the first line
starting with "bestmove" with the last score, defaulting to 0.  Returns
the result and the consumed lines; exhausting the lines without a
terminal line is a timeout. -/
def evalScan : Option Int → List String → Option Int × List String
  | _, [] => (none, [])
  | acc, l :: ls =>
    if startsWithStr l "bestmove" then (some ((updateScore acc l).getD 0), [l])
    else ((evalScan (updateScore acc l) ls).1,
      l :: (evalScan (updateScore acc l) ls).2)

/-- The session-event trace of one search request: the position and go
commands, waiter registration, the delivered lines, and the waiter
clearing. -/
def requestTrace (fromFen : String) (depth : Nat) (consumed : List String) :
    List Ev :=
  [Ev.cmd ("position fen " ++ fromFen), Ev.cmd ("go depth " ++ toString depth),
    Ev.reg] ++ consumed.map Ev.line ++ [Ev.clear]

/-- Model of `evalPosition`: send the position and go commands, register
the waiter, and consume the episode's (trimmed) lines until the terminal
line. -/
def evalPositionM (fen : String) (depth : Nat) (ep : List String) :
    Option Int × List Ev :=
  let fed := ep.map trimStr
  ((evalScan none fed).1, requestTrace fen depth (evalScan none fed).2)

/-- Model of one iteration of the per-move loop of `analyze`: request the
engine's suggestion from the pre-move position, extract the bestmove
token, apply it via the external capability, and on success evaluate the
hypothetical and the actual post-move positions and score the move. -/
def stepRecord (applyUci : String → String → Option String) (depth : Nat)
    (i : Nat) (rec : MoveRec) (orc : List (List String)) :
    StepRes × List (List String) × List Ev :=
  let ep1 := (popEp orc).1
  let orc1 := (popEp orc).2
  let fed1 := ep1.map trimStr
  let tr1 : List Ev :=
    requestTrace rec.fromFen depth
      (waitScan (fun l => startsWithStr l "bestmove") fed1).2
  match (waitScan (fun l => startsWithStr l "bestmove") fed1).1 with
  | none => (StepRes.fail AErr.waitTimeout, orc1, tr1)
  | some bestMoveLine =>
    match extractBestMove bestMoveLine with
    | none => (StepRes.skip, orc1, tr1)
    | some bestMoveUci =>
      match applyUci rec.fromFen bestMoveUci with
      | none => (StepRes.skip, orc1, tr1)
      | some fenAfterBest =>
        let ep2 := (popEp orc1).1
        let orc2 := (popEp orc1).2
        let tr2 := (evalPositionM fenAfterBest depth ep2).2
        match (evalPositionM fenAfterBest depth ep2).1 with
        | none => (StepRes.fail AErr.evalTimeout, orc2, tr1 ++ tr2)
        | some evalBest =>
          let ep3 := (popEp orc2).1
          let orc3 := (popEp orc2).2
          let tr3 := (evalPositionM rec.toFen depth ep3).2
          match (evalPositionM rec.toFen depth ep3).1 with
          | none => (StepRes.fail AErr.evalTimeout, orc3, tr1 ++ tr2 ++ tr3)
          | some evalPlayed =>
            let cpl := centipawnLoss evalBest evalPlayed rec.turnBefore
            let moveScore := cplToMoveScore (cpl : ℚ)
            (StepRes.scored ⟨i + 1, rec.moveSan, cpl, moveScore⟩, orc3,
              tr1 ++ tr2 ++ tr3)

/-- The per-move loop of `analyze`: a failing step aborts the whole
analysis, a skipped step contributes no score, a scored step prepends its
score. -/
def loopM (applyUci : String → String → Option String) (depth : Nat) :
    List MoveRec → Nat → List (List String) →
    Except AErr (List MoveScoreR) × List Ev
  | [], _, _ => (Except.ok [], [])
  | rec :: rest, i, orc =>
    let step := stepRecord applyUci depth i rec orc
    match step.1 with
    | StepRes.fail e => (Except.error e, step.2.2)
    | StepRes.skip =>
      ((loopM applyUci depth rest (i + 1) step.2.1).1,
        step.2.2 ++ (loopM applyUci depth rest (i + 1) step.2.1).2)
    | StepRes.scored s =>
      ((loopM applyUci depth rest (i + 1) step.2.1).1.map (fun ss => s :: ss),
        step.2.2 ++ (loopM applyUci depth rest (i + 1) step.2.1).2)

/-- The session-event trace of the readiness round-trip. -/
def readyTrace (consumed : List String) : List Ev :=
  [Ev.cmd "isready", Ev.reg] ++ consumed.map Ev.line ++ [Ev.clear]

/-- Model of `analyze`: the constructor's handshake command, the
readiness round-trip, the per-move loop, and on the successful path the
quit command followed by the accuracy aggregation. -/
def analyzeM (applyUci : String → String → Option String)
    (records : List MoveRec) (depth : Nat) (oracle : List (List String)) :
    Except AErr ℚ × List Ev :=
  let tr0 : List Ev := [Ev.cmd "uci"]
  let ep0 := (popEp oracle).1
  let orc0 := (popEp oracle).2
  let fed0 := ep0.map trimStr
  let trReady : List Ev :=
    readyTrace (waitScan (fun l => l = "readyok") fed0).2
  match (waitScan (fun l => l = "readyok") fed0).1 with
  | none => (Except.error AErr.waitTimeout, tr0 ++ trReady)
  | some _ =>
    match (loopM applyUci depth records 0 orc0).1 with
    | Except.error e =>
      (Except.error e, tr0 ++ trReady ++ (loopM applyUci depth records 0 orc0).2)
    | Except.ok scores =>
      (Except.ok (accuracy (scores.map MoveScoreR.score)),
        tr0 ++ trReady ++ (loopM applyUci depth records 0 orc0).2
          ++ [Ev.cmd "quit"])

/-! ## Trace invariants -/

/-- Run the single-waiter discipline over a trace: registration requires
no waiter present, clearing and line delivery require one; returns the
final waiter state, or `none` on a violation. -/
def waiterRun : List Ev → Bool → Option Bool
  | [], b => some b
  | Ev.reg :: tr, b => if b then none else waiterRun tr true
  | Ev.clear :: tr, b => if b then waiterRun tr false else none
  | Ev.line _ :: tr, b => if b then waiterRun tr b else none
  | Ev.cmd _ :: tr, b => waiterRun tr b

/-- Run the request-serialization discipline over a trace: a go command
requires no request in flight and puts one in flight; consuming a line
starting with "bestmove" takes it out of flight; returns the final
in-flight state, or `none` on a violation. -/
def serialRun : List Ev → Bool → Option Bool
  | [], b => some b
  | Ev.cmd c :: tr, b =>
    if startsWithStr c "go " then if b then none else serialRun tr true
    else serialRun tr b
  | Ev.line l :: tr, b =>
    if startsWithStr l "bestmove" then serialRun tr false else serialRun tr b
  | Ev.reg :: tr, b => serialRun tr b
  | Ev.clear :: tr, b => serialRun tr b

/-- Count of go commands in a trace (the number of search requests
issued). -/
def countGo (tr : List Ev) : Nat :=
  tr.countP (fun e =>
    match e with
    | Ev.cmd c => startsWithStr c "go "
    | _ => false)

/-! ## Helper lemmas -/

/-- The step mapping always yields at least one tenth. -/
lemma cplToMoveScore_ge (x : ℚ) : 1 / 10 ≤ cplToMoveScore x := by
  unfold cplToMoveScore
  split_ifs <;> norm_num

/-- The step mapping never exceeds one. -/
lemma cplToMoveScore_le (x : ℚ) : cplToMoveScore x ≤ 1 := by
  unfold cplToMoveScore
  split_ifs <;> norm_num

/-- The step mapping is antitone. -/
lemma cplToMoveScore_anti {x y : ℚ} (h : x ≤ y) :
    cplToMoveScore y ≤ cplToMoveScore x := by
  unfold cplToMoveScore
  split_ifs <;> norm_num <;> linarith

/-- The fold used by the accuracy aggregation is the list sum. -/
lemma foldl_add_eq_sum (l : List ℚ) : l.foldl (fun s m => s + m) 0 = l.sum := by
  rw [List.sum_eq_foldl]

/-! ## C7: the centipawn-loss mapping -/

/-- C7: for every centipawnLoss ≥ 0, the centipawn-loss-to-score mapping
is monotonically non-increasing in centipawnLoss and its value always
lies in (0, 1]; its breakpoints are 1.00 for loss ≤ 10, 0.95 for ≤ 30,
0.80 for ≤ 60, 0.60 for ≤ 100, 0.30 for ≤ 200, and 0.10 otherwise. -/
theorem cplToMoveScore_monotone_bounded_breakpoints (x y : ℚ)
    (hx : 0 ≤ x) (hxy : x ≤ y) :
    cplToMoveScore y ≤ cplToMoveScore x ∧
    (0 < cplToMoveScore x ∧ cplToMoveScore x ≤ 1) ∧
    (x ≤ 10 → cplToMoveScore x = 1.00) ∧
    (10 < x → x ≤ 30 → cplToMoveScore x = 0.95) ∧
    (30 < x → x ≤ 60 → cplToMoveScore x = 0.80) ∧
    (60 < x → x ≤ 100 → cplToMoveScore x = 0.60) ∧
    (100 < x → x ≤ 200 → cplToMoveScore x = 0.30) ∧
    (200 < x → cplToMoveScore x = 0.10) := by
  refine ⟨cplToMoveScore_anti hxy,
    ⟨lt_of_lt_of_le (by norm_num) (cplToMoveScore_ge x), cplToMoveScore_le x⟩,
    ?_, ?_, ?_, ?_, ?_, ?_⟩ <;>
    · intros
      unfold cplToMoveScore
      split_ifs <;> norm_num <;> linarith

/-- Witness for C7 at the concrete pair (20, 250). -/
theorem cplToMoveScore_monotone_bounded_breakpoints_witness :
    cplToMoveScore 250 ≤ cplToMoveScore 20 ∧
    (0 < cplToMoveScore 20 ∧ cplToMoveScore 20 ≤ 1) ∧
    ((20 : ℚ) ≤ 10 → cplToMoveScore 20 = 1.00) ∧
    ((10 : ℚ) < 20 → (20 : ℚ) ≤ 30 → cplToMoveScore 20 = 0.95) ∧
    ((30 : ℚ) < 20 → (20 : ℚ) ≤ 60 → cplToMoveScore 20 = 0.80) ∧
    ((60 : ℚ) < 20 → (20 : ℚ) ≤ 100 → cplToMoveScore 20 = 0.60) ∧
    ((100 : ℚ) < 20 → (20 : ℚ) ≤ 200 → cplToMoveScore 20 = 0.30) ∧
    ((200 : ℚ) < 20 → cplToMoveScore 20 = 0.10) :=
  cplToMoveScore_monotone_bounded_breakpoints 20 250 (by norm_num) (by norm_num)

/-! ## C3: the accuracy aggregation -/

/-- C3: for every sequence of move scores, accuracy equals the
arithmetic mean of the normalizedScore values scaled to [0,100], equals 0
on the empty sequence, and in particular accuracy [1.0, 0.8, 0.6] = 80
exactly. -/
theorem accuracy_mean_scaled (l : List ℚ) :
    (l ≠ [] → accuracy l = (l.sum / (l.length : ℚ)) * 100) ∧
    accuracy ([] : List ℚ) = 0 ∧
    accuracy [1.0, 0.8, 0.6] = 80.0 := by
  refine ⟨fun h => ?_, by simp [accuracy], ?_⟩
  · unfold accuracy
    rw [if_neg (by simpa using h), foldl_add_eq_sum]
  · unfold accuracy
    norm_num [List.foldl]

/-- Witness for C3 at the concrete list of the specification. -/
theorem accuracy_mean_scaled_witness :
    accuracy [1.0, 0.8, 0.6] =
      (([1.0, 0.8, 0.6] : List ℚ).sum /
        (([1.0, 0.8, 0.6] : List ℚ).length : ℚ)) * 100 :=
  (accuracy_mean_scaled [1.0, 0.8, 0.6]).1 (by simp)

/-! ## C1: the centipawn-loss arithmetic -/

/-- C1: for every scored move, the centipawn loss equals
max(0, evalBestPersp − evalPlayedPersp) where the perspective values flip
sign exactly when the mover was black, and the result is never negative;
moreover every move scored by the per-move loop carries such a value. -/
theorem centipawnLoss_clamped_max (evalBest evalPlayed : Int) (t : Side)
    (applyUci : String → String → Option String) (depth i : Nat)
    (rec : MoveRec) (orc orc' : List (List String)) (s : MoveScoreR)
    (tr : List Ev)
    (hstep : stepRecord applyUci depth i rec orc = (StepRes.scored s, orc', tr)) :
    centipawnLoss evalBest evalPlayed t =
      max 0 ((if t = Side.w then evalBest else -evalBest) -
        (if t = Side.w then evalPlayed else -evalPlayed)) ∧
    0 ≤ centipawnLoss evalBest evalPlayed t ∧
    (∃ eb ep, s.cpl = centipawnLoss eb ep rec.turnBefore ∧
      s.score = cplToMoveScore (s.cpl : ℚ) ∧ 0 ≤ s.cpl) := by
  have harith : ∀ a b : Int, ∀ u : Side,
      centipawnLoss a b u =
        max 0 ((if u = Side.w then a else -a) - (if u = Side.w then b else -b)) ∧
      0 ≤ centipawnLoss a b u := by
    intro a b u
    unfold centipawnLoss playerMultiplierOf
    rcases u with _ | _ <;> simp <;> omega
  refine ⟨(harith evalBest evalPlayed t).1, (harith evalBest evalPlayed t).2, ?_⟩
  unfold stepRecord at hstep
  simp only [] at hstep
  split at hstep
  · simp at hstep
  split at hstep
  · simp at hstep
  split at hstep
  · simp at hstep
  split at hstep
  · simp at hstep
  split at hstep
  · simp at hstep
  simp only [Prod.mk.injEq, StepRes.scored.injEq] at hstep
  obtain ⟨hs, -, -⟩ := hstep
  subst hs
  exact ⟨_, _, rfl, rfl, (harith _ _ _).2⟩

/-! ## Concrete sample runs used by witnesses -/

/-- A sample move record. -/
def sampleRec : MoveRec := ⟨"e4", "f1", "f2", Side.w⟩

/-- A sample move-application capability that always succeeds. -/
def sampleApply : String → String → Option String := fun _ _ => some "f3"

/-- A sample oracle for the per-move loop: a bestmove answer and two
evaluation episodes announcing identical scores. -/
def sampleOrcLoop : List (List String) :=
  [["bestmove e2e4"], ["info score cp 20", "bestmove a1a2"],
   ["info score cp 20", "bestmove a1a2"]]

/-- The move score produced by the sample run. -/
def sampleScore : MoveScoreR :=
  ⟨1, "e4", centipawnLoss 20 20 Side.w,
    cplToMoveScore ((centipawnLoss 20 20 Side.w : Int) : ℚ)⟩

/-- Witness for C1 at a concrete scored run of the per-move step. -/
theorem centipawnLoss_clamped_max_witness :
    centipawnLoss 7 3 Side.b =
      max 0 ((if Side.b = Side.w then 7 else -7) -
        (if Side.b = Side.w then 3 else -3)) ∧
    0 ≤ centipawnLoss 7 3 Side.b ∧
    (∃ eb ep, sampleScore.cpl = centipawnLoss eb ep sampleRec.turnBefore ∧
      sampleScore.score = cplToMoveScore (sampleScore.cpl : ℚ) ∧
      0 ≤ sampleScore.cpl) :=
  centipawnLoss_clamped_max 7 3 Side.b sampleApply 18 0 sampleRec sampleOrcLoop
    (stepRecord sampleApply 18 0 sampleRec sampleOrcLoop).2.1 sampleScore
    (stepRecord sampleApply 18 0 sampleRec sampleOrcLoop).2.2 rfl

/-! ## C10: the bestmove-token pattern -/

/-- C10 (code bug evidence): the token class of the source's bestmove
regex merges the destination rank and the promotion letter into one
optional class.  Consequently the non-move token "(none)" and the
promotion move "e7e8q" are both rejected (the latter contradicting the
evident intent, and making the source's own promotion-extraction branch
for five-character tokens unreachable), while the three-character
non-move token "e2e" is accepted; rejected terminal lines make the step
skip the record rather than fail. -/
theorem extractBestMove_mixed_class_eval :
    extractBestMove "bestmove (none)" = none ∧
    extractBestMove "bestmove e7e8q" = none ∧
    extractBestMove "bestmove e2e" = some "e2e" ∧
    extractBestMove "bestmove e2e4" = some "e2e4" ∧
    (stepRecord sampleApply 18 0 sampleRec [["bestmove (none)"]]).1 =
      StepRes.skip ∧
    (stepRecord sampleApply 18 0 sampleRec [["bestmove e7e8q"]]).1 =
      StepRes.skip := by
  refine ⟨rfl, rfl, rfl, rfl, rfl, rfl⟩

/-! ## C2: score extraction -/

/-- Counterexample to C2 as stated: a forced-mate announcement of
distance 0 parses to 100000, while the claimed formula
sign(N) × (100000 − |N|) yields 0 at N = 0. -/
theorem parseScore_mate_zero_counterexample :
    parseScoreFromInfoLine "info depth 20 score mate 0" = some 100000 ∧
    Int.sign 0 * (100000 - (Int.natAbs 0 : Int)) = 0 ∧
    (100000 : Int) ≠ 0 := by
  refine ⟨rfl, by decide, by decide⟩

/-- A digit character is not the minus sign. -/
lemma ne_minus_of_digit {c : Char} (h : c.isDigit = true) : ¬c = '-' := by
  intro he
  rw [he] at h
  exact absurd h (by decide)

/-- Stripping a literal off itself leaves the tail. -/
lemma stripLit_self (p l : List Char) : stripLit p (p ++ l) = some l := by
  induction p with
  | nil => rfl
  | cons c cs ih => simp [stripLit, ih]

/-- A digit run followed by a non-digit is taken whole by the greedy
digit matcher. -/
lemma takeDigits_append (ds rest : List Char)
    (hds : ∀ c ∈ ds, c.isDigit = true)
    (hrest : ∀ c, rest.head? = some c → c.isDigit = false) :
    takeDigits (ds ++ rest) = (ds, rest) := by
  induction ds with
  | nil =>
    cases rest with
    | nil => rfl
    | cons c t =>
      have := hrest c rfl
      simp [takeDigits, this]
  | cons d ds' ih =>
    have hd := hds d (by simp)
    have ih' := ih (fun c hc => hds c (by simp [hc]))
    simp [takeDigits, hd, ih']

/-- The optional-sign-and-digits matcher on a well-formed number. -/
lemma matchIntAt_signed (neg : Bool) (ds rest : List Char)
    (hne : ds ≠ [])
    (hds : ∀ c ∈ ds, c.isDigit = true)
    (hrest : ∀ c, rest.head? = some c → c.isDigit = false) :
    matchIntAt ((if neg then ['-'] else []) ++ ds ++ rest) =
      some (if neg then -(digitsVal ds : Int) else (digitsVal ds : Int)) := by
  have htd := takeDigits_append ds rest hds hrest
  cases neg with
  | true =>
    show matchIntAt ('-' :: (ds ++ rest)) = some (-(digitsVal ds : Int))
    simp [matchIntAt, htd, hne]
  | false =>
    cases ds with
    | nil => exact absurd rfl hne
    | cons d ds' =>
      have hd : d.isDigit = true := hds d (by simp)
      have hne' := ne_minus_of_digit hd
      show matchIntAt (d :: (ds' ++ rest)) =
        some ((digitsVal (d :: ds') : Int))
      rw [List.cons_append] at htd
      simp [matchIntAt, hne', htd]

/-- Scanning steps over a position where the pattern does not match. -/
lemma scanFor_cons_none (f : List Char → Option Int) (c : Char)
    (cs : List Char) (h : f (c :: cs) = none) :
    scanFor f (c :: cs) = scanFor f cs := by
  have e : scanFor f (c :: cs) = (match f (c :: cs) with
      | some v => some v
      | none => scanFor f cs : Option Int) := rfl
  rw [e, h]

/-- Scanning skips a non-matching stretch. -/
lemma scanFor_append_none (f : List Char → Option Int) (pre s : List Char)
    (h : ∀ i, i < pre.length → f ((pre ++ s).drop i) = none) :
    scanFor f (pre ++ s) = scanFor f s := by
  induction pre with
  | nil => rfl
  | cons c cs ih =>
    have h0 := h 0 (by simp)
    simp only [List.drop_zero] at h0
    rw [List.cons_append, scanFor_cons_none f c (cs ++ s) h0]
    exact ih (fun i hi => h (i + 1) (by simpa using hi))

/-- Scanning a list whose head position matches yields that match. -/
lemma scanFor_here (f : List Char → Option Int) (s : List Char) (v : Int)
    (hs : f s = some v) : scanFor f s = some v := by
  cases s <;> simp [scanFor, hs]

/-- C2 (amended): a centipawn announcement is parsed verbatim; a
forced-mate announcement of distance N is converted by `mateToScore`,
which equals s(N) × (100000 − |N|) with s(N) = 1 for N ≥ 0 and −1 for
N < 0 (so mate 0 yields 100000); the specification's three example lines
parse to 34, 99997 and −99998. -/
theorem parseScore_cp_verbatim_mate_converted :
    (∀ pre ds rest (neg : Bool),
      ds ≠ [] →
      (∀ c ∈ ds, c.isDigit = true) →
      (∀ c, rest.head? = some c → c.isDigit = false) →
      (∀ i, i < pre.length →
        matchCpAt ((pre ++ scoreCpPat ++ (if neg then ['-'] else []) ++ ds ++
          rest).drop i) = none) →
      parseScoreCore
        (pre ++ scoreCpPat ++ (if neg then ['-'] else []) ++ ds ++ rest) =
        some (if neg then -(digitsVal ds : Int) else (digitsVal ds : Int))) ∧
    (∀ pre ds rest (neg : Bool),
      ds ≠ [] →
      (∀ c ∈ ds, c.isDigit = true) →
      (∀ c, rest.head? = some c → c.isDigit = false) →
      scanFor matchCpAt
        (pre ++ scoreMatePat ++ (if neg then ['-'] else []) ++ ds ++ rest) =
          none →
      (∀ i, i < pre.length →
        matchMateAt ((pre ++ scoreMatePat ++ (if neg then ['-'] else []) ++ ds
          ++ rest).drop i) = none) →
      parseScoreCore
        (pre ++ scoreMatePat ++ (if neg then ['-'] else []) ++ ds ++ rest) =
        some (mateToScore
          (if neg then -(digitsVal ds : Int) else (digitsVal ds : Int)))) ∧
    (∀ n : Int,
      mateToScore n = (if 0 ≤ n then 1 else -1) * (100000 - (n.natAbs : Int))) ∧
    parseScoreFromInfoLine "info depth 12 score cp 34 nodes 1000" = some 34 ∧
    parseScoreFromInfoLine "info depth 20 score mate 3 pv e2e4" = some 99997 ∧
    parseScoreFromInfoLine "info depth 18 score mate -2 pv e2e4" =
      some (-99998) ∧
    parseScoreFromInfoLine "info depth 20 score mate 0" = some 100000 := by
  refine ⟨?_, ?_, fun n => rfl, rfl, rfl, rfl, rfl⟩
  · intro pre ds rest neg hne hds hrest hpre
    have hmatch : matchCpAt (scoreCpPat ++ (if neg then ['-'] else []) ++ ds
        ++ rest) = some (if neg then -(digitsVal ds : Int) else
          (digitsVal ds : Int)) := by
      unfold matchCpAt
      rw [List.append_assoc, List.append_assoc, stripLit_self, Option.some_bind]
      rw [← List.append_assoc]
      exact matchIntAt_signed neg ds rest hne hds hrest
    have hscan : scanFor matchCpAt (pre ++ (scoreCpPat ++
        (if neg then ['-'] else []) ++ ds ++ rest)) =
        some (if neg then -(digitsVal ds : Int) else (digitsVal ds : Int)) := by
      rw [scanFor_append_none matchCpAt pre _ (by
        intro i hi
        have := hpre i hi
        simpa [List.append_assoc] using this)]
      exact scanFor_here _ _ _ hmatch
    unfold parseScoreCore
    rw [show pre ++ scoreCpPat ++ (if neg then ['-'] else []) ++ ds ++ rest =
      pre ++ (scoreCpPat ++ (if neg then ['-'] else []) ++ ds ++ rest) by
        simp [List.append_assoc]]
    rw [hscan]
  · intro pre ds rest neg hne hds hrest hcp hpre
    have hmatch : matchMateAt (scoreMatePat ++ (if neg then ['-'] else []) ++
        ds ++ rest) = some (if neg then -(digitsVal ds : Int) else
          (digitsVal ds : Int)) := by
      unfold matchMateAt
      rw [List.append_assoc, List.append_assoc, stripLit_self, Option.some_bind]
      rw [← List.append_assoc]
      exact matchIntAt_signed neg ds rest hne hds hrest
    have hscan : scanFor matchMateAt (pre ++ (scoreMatePat ++
        (if neg then ['-'] else []) ++ ds ++ rest)) =
        some (if neg then -(digitsVal ds : Int) else (digitsVal ds : Int)) := by
      rw [scanFor_append_none matchMateAt pre _ (by
        intro i hi
        have := hpre i hi
        simpa [List.append_assoc] using this)]
      exact scanFor_here _ _ _ hmatch
    unfold parseScoreCore
    rw [show pre ++ scoreMatePat ++ (if neg then ['-'] else []) ++ ds ++ rest =
      pre ++ (scoreMatePat ++ (if neg then ['-'] else []) ++ ds ++ rest) by
        simp [List.append_assoc]] at hcp ⊢
    rw [hcp, hscan]

/-- Witness for C2 at the specification's centipawn example line. -/
theorem parseScore_cp_verbatim_mate_converted_witness :
    (['3', '4'] ≠ ([] : List Char)) ∧
    parseScoreCore ("info depth 12 ".data ++ scoreCpPat ++
        (if false then ['-'] else []) ++ ['3', '4'] ++ " nodes 1000".data) =
      some (if false then -(digitsVal ['3', '4'] : Int) else
        (digitsVal ['3', '4'] : Int)) :=
  ⟨by decide,
    parseScore_cp_verbatim_mate_converted.1 "info depth 12 ".data ['3', '4']
      " nodes 1000".data false (by decide) (by decide) (by decide) (by decide)⟩

/-! ## C6: the evalPosition consumption loop -/

/-- The running last score after folding `updateScore` over a list of
lines equals the last parsable score, falling back to the initial
accumulator. -/
lemma foldl_updateScore (l : List String) (acc : Option Int) :
    List.foldl updateScore acc l =
      ((l.filterMap parseScoreFromInfoLine).getLast?).or acc := by
  induction l generalizing acc with
  | nil => simp
  | cons x xs ih =>
    rw [List.foldl_cons, ih]
    cases hx : parseScoreFromInfoLine x with
    | none => simp [List.filterMap_cons, hx, updateScore]
    | some v =>
      simp only [List.filterMap_cons, hx]
      cases hxs : xs.filterMap parseScoreFromInfoLine with
      | nil => simp [updateScore, hx]
      | cons y ys =>
        rw [List.getLast?_cons_cons,
          List.getLast?_eq_getLast (y :: ys) (by simp)]
        rfl

/-- The consumption loop stops at the first terminal line, returning the
folded last score (defaulted to 0) and the consumed lines. -/
lemma evalScan_terminates (pre post : List String) (b : String)
    (acc : Option Int)
    (hb : startsWithStr b "bestmove" = true)
    (hpre : ∀ l ∈ pre, startsWithStr l "bestmove" = false) :
    evalScan acc (pre ++ b :: post) =
      (some ((List.foldl updateScore acc (pre ++ [b])).getD 0), pre ++ [b]) := by
  induction pre generalizing acc with
  | nil =>
    simp only [List.nil_append]
    simp [evalScan, hb]
  | cons x xs ih =>
    have hx := hpre x (by simp)
    rw [List.cons_append]
    simp only [evalScan, hx]
    rw [ih (updateScore acc x) (fun l hl => hpre l (by simp [hl]))]
    simp

/-- C6: the score of a completed evaluation is the last score announced
among the consumed lines (terminal line included), unparsable lines leave
the running score unchanged, and with no announcement at all the score
defaults to 0 while the evaluation still succeeds. -/
theorem evalScan_last_announced_score (pre post : List String) (b : String)
    (hb : startsWithStr b "bestmove" = true)
    (hpre : ∀ l ∈ pre, startsWithStr l "bestmove" = false) :
    (evalScan none (pre ++ b :: post)).1 =
      some ((((pre ++ [b]).filterMap parseScoreFromInfoLine).getLast?).getD 0) ∧
    (evalScan none (pre ++ b :: post)).2 = pre ++ [b] ∧
    (∀ acc l, parseScoreFromInfoLine l = none → updateScore acc l = acc) ∧
    ((pre ++ [b]).filterMap parseScoreFromInfoLine = [] →
      (evalScan none (pre ++ b :: post)).1 = some 0) := by
  have hrun := evalScan_terminates pre post b none hb hpre
  have h1 : (evalScan none (pre ++ b :: post)).1 =
      some ((((pre ++ [b]).filterMap parseScoreFromInfoLine).getLast?).getD 0) := by
    rw [hrun, foldl_updateScore, Option.or_none]
  refine ⟨h1, by rw [hrun], fun acc l h => by simp [updateScore, h], fun he => ?_⟩
  rw [h1, he]
  rfl

/-- Witness for C6 at a concrete consumed line sequence. -/
theorem evalScan_last_announced_score_witness :
    (evalScan none
        (["info score cp 5", "junk"] ++ "bestmove e2e4" :: ["late"])).1 =
      some ((((["info score cp 5", "junk"] ++ ["bestmove e2e4"]).filterMap
        parseScoreFromInfoLine).getLast?).getD 0) ∧
    (evalScan none
        (["info score cp 5", "junk"] ++ "bestmove e2e4" :: ["late"])).2 =
      ["info score cp 5", "junk"] ++ ["bestmove e2e4"] ∧
    (∀ acc l, parseScoreFromInfoLine l = none → updateScore acc l = acc) ∧
    ((["info score cp 5", "junk"] ++ ["bestmove e2e4"]).filterMap
        parseScoreFromInfoLine = [] →
      (evalScan none
        (["info score cp 5", "junk"] ++ "bestmove e2e4" :: ["late"])).1 =
        some 0) :=
  evalScan_last_announced_score ["info score cp 5", "junk"] ["late"]
    "bestmove e2e4" (by decide) (by decide)

/-! ## C5: unscored moves are skipped and processing continues -/

/-- A position command does not start with "go ". -/
lemma go_not_position (s : String) :
    startsWithStr ("position fen " ++ s) "go " = false := by
  show "go ".data.isPrefixOf ("position fen " ++ s).data = false
  rw [String.data_append]
  rfl

/-- A go command starts with "go ". -/
lemma go_starts_go (s : String) :
    startsWithStr ("go depth " ++ s) "go " = true := by
  show "go ".data.isPrefixOf ("go depth " ++ s).data = true
  rw [String.data_append]
  rfl

/-- Unfolding equation for the per-move loop on a non-empty record
list. -/
lemma loopM_cons (applyUci : String → String → Option String) (depth : Nat)
    (r : MoveRec) (rs : List MoveRec) (j : Nat) (orc : List (List String)) :
    loopM applyUci depth (r :: rs) j orc =
      match (stepRecord applyUci depth j r orc).1 with
      | StepRes.fail e =>
        (Except.error e, (stepRecord applyUci depth j r orc).2.2)
      | StepRes.skip =>
        ((loopM applyUci depth rs (j + 1)
            (stepRecord applyUci depth j r orc).2.1).1,
          (stepRecord applyUci depth j r orc).2.2 ++
            (loopM applyUci depth rs (j + 1)
              (stepRecord applyUci depth j r orc).2.1).2)
      | StepRes.scored s =>
        ((loopM applyUci depth rs (j + 1)
            (stepRecord applyUci depth j r orc).2.1).1.map (fun ss => s :: ss),
          (stepRecord applyUci depth j r orc).2.2 ++
            (loopM applyUci depth rs (j + 1)
              (stepRecord applyUci depth j r orc).2.1).2) := rfl

/-- A record whose suggestion is missing or inapplicable makes the step
skip, consuming exactly one oracle episode and emitting only the single
bestmove request. -/
lemma stepRecord_skip_of_bind_none
    (applyUci : String → String → Option String) (depth i : Nat)
    (rec : MoveRec) (orc : List (List String)) (bestLine : String)
    (h1 : (waitScan (fun l => startsWithStr l "bestmove")
        ((popEp orc).1.map trimStr)).1 = some bestLine)
    (h2 : (extractBestMove bestLine).bind (applyUci rec.fromFen) = none) :
    stepRecord applyUci depth i rec orc =
      (StepRes.skip, (popEp orc).2,
        requestTrace rec.fromFen depth
          (waitScan (fun l => startsWithStr l "bestmove")
            ((popEp orc).1.map trimStr)).2) := by
  cases hE : extractBestMove bestLine with
  | none => simp [stepRecord, h1, hE]
  | some u =>
    have hA : applyUci rec.fromFen u = none := by simpa [hE] using h2
    simp [stepRecord, h1, hE, hA]

/-- The trace of one request holds exactly one go command. -/
lemma countGo_requestTrace (f : String) (d : Nat) (ls : List String) :
    countGo (requestTrace f d ls) = 1 := by
  unfold countGo requestTrace
  simp [List.countP_cons, List.countP_append, List.countP_map, Function.comp,
    go_not_position, go_starts_go, List.countP_eq_zero]

/-- A scored step stamps the one-based index of its record. -/
lemma stepRecord_scored_idx (applyUci : String → String → Option String)
    (depth j : Nat) (rec : MoveRec) (orc : List (List String)) (s : MoveScoreR)
    (h : (stepRecord applyUci depth j rec orc).1 = StepRes.scored s) :
    s.idx = j + 1 := by
  unfold stepRecord at h
  simp only [] at h
  split at h
  · simp at h
  split at h
  · simp at h
  split at h
  · simp at h
  split at h
  · simp at h
  split at h
  · simp at h
  simp only [StepRes.scored.injEq] at h
  rw [← h]

/-- Every score produced by the loop started at index j is stamped with
an index strictly greater than j. -/
lemma loopM_idx_gt (applyUci : String → String → Option String) (depth : Nat)
    (recs : List MoveRec) :
    ∀ (j : Nat) (orc : List (List String)) (scores : List MoveScoreR),
      (loopM applyUci depth recs j orc).1 = Except.ok scores →
      ∀ s ∈ scores, j + 1 ≤ s.idx := by
  induction recs with
  | nil =>
    intro j orc scores h s hs
    simp only [loopM] at h
    cases h
    simp at hs
  | cons r rs ih =>
    intro j orc scores h s hs
    rw [loopM_cons] at h
    cases hstep : (stepRecord applyUci depth j r orc).1 with
    | fail e => rw [hstep] at h; simp at h
    | skip =>
      rw [hstep] at h
      simp only [] at h
      have := ih (j + 1) (stepRecord applyUci depth j r orc).2.1 scores h s hs
      omega
    | scored sc =>
      rw [hstep] at h
      simp only [] at h
      cases hin : (loopM applyUci depth rs (j + 1)
          (stepRecord applyUci depth j r orc).2.1).1 with
      | error e => rw [hin] at h; simp [Except.map] at h
      | ok ss =>
        rw [hin] at h
        simp only [Except.map, Except.ok.injEq] at h
        rw [← h] at hs
        rcases List.mem_cons.mp hs with hs1 | hs2
        · rw [hs1, stepRecord_scored_idx applyUci depth j r orc sc hstep]
        · have := ih (j + 1) (stepRecord applyUci depth j r orc).2.1 ss hin s hs2
          omega

/-- C5: a record whose engine suggestion is missing or cannot be applied
is unscored: the step skips without failing, performs no evaluation
searches (its trace holds exactly the one suggestion request), the loop
result is exactly the processing of the remaining records, and no score
in the output carries the skipped record's index. -/
theorem unscored_move_skipped_loop_continues
    (applyUci : String → String → Option String) (depth i : Nat)
    (rec : MoveRec) (rest : List MoveRec) (orc : List (List String))
    (bestLine : String)
    (h1 : (waitScan (fun l => startsWithStr l "bestmove")
        ((popEp orc).1.map trimStr)).1 = some bestLine)
    (h2 : (extractBestMove bestLine).bind (applyUci rec.fromFen) = none) :
    (stepRecord applyUci depth i rec orc).1 = StepRes.skip ∧
    countGo (stepRecord applyUci depth i rec orc).2.2 = 1 ∧
    loopM applyUci depth (rec :: rest) i orc =
      ((loopM applyUci depth rest (i + 1) (popEp orc).2).1,
        (stepRecord applyUci depth i rec orc).2.2 ++
          (loopM applyUci depth rest (i + 1) (popEp orc).2).2) ∧
    (∀ scores,
      (loopM applyUci depth (rec :: rest) i orc).1 = Except.ok scores →
      ∀ s ∈ scores, s.idx ≠ i + 1) := by
  have hstep := stepRecord_skip_of_bind_none applyUci depth i rec orc bestLine
    h1 h2
  have hskip : (stepRecord applyUci depth i rec orc).1 = StepRes.skip := by
    rw [hstep]
  have horc : (stepRecord applyUci depth i rec orc).2.1 = (popEp orc).2 := by
    rw [hstep]
  have htr : (stepRecord applyUci depth i rec orc).2.2 =
      requestTrace rec.fromFen depth
        (waitScan (fun l => startsWithStr l "bestmove")
          ((popEp orc).1.map trimStr)).2 := by
    rw [hstep]
  have hloop : loopM applyUci depth (rec :: rest) i orc =
      ((loopM applyUci depth rest (i + 1) (popEp orc).2).1,
        (stepRecord applyUci depth i rec orc).2.2 ++
          (loopM applyUci depth rest (i + 1) (popEp orc).2).2) := by
    rw [loopM_cons, hskip]
    simp only [horc]
  refine ⟨hskip, ?_, hloop, ?_⟩
  · rw [htr]
    exact countGo_requestTrace _ _ _
  · intro scores h s hs
    rw [hloop] at h
    simp only [] at h
    have := loopM_idx_gt applyUci depth rest (i + 1) (popEp orc).2 scores h s hs
    omega

/-- Witness for C5 at a concrete skipped record. -/
theorem unscored_move_skipped_loop_continues_witness :
    (stepRecord sampleApply 18 0 sampleRec [["bestmove (none)"]]).1 =
      StepRes.skip ∧
    countGo (stepRecord sampleApply 18 0 sampleRec [["bestmove (none)"]]).2.2
      = 1 ∧
    loopM sampleApply 18 [sampleRec] 0 [["bestmove (none)"]] =
      ((loopM sampleApply 18 [] 1 (popEp [["bestmove (none)"]]).2).1,
        (stepRecord sampleApply 18 0 sampleRec [["bestmove (none)"]]).2.2 ++
          (loopM sampleApply 18 [] 1 (popEp [["bestmove (none)"]]).2).2) ∧
    (∀ scores,
      (loopM sampleApply 18 [sampleRec] 0 [["bestmove (none)"]]).1 =
        Except.ok scores →
      ∀ s ∈ scores, s.idx ≠ 0 + 1) :=
  unscored_move_skipped_loop_continues sampleApply 18 0 sampleRec []
    [["bestmove (none)"]] "bestmove (none)" rfl rfl

/-! ## C9: the accuracy of a non-trivial analysis -/

/-- A scored step's normalized score is the step mapping of some
centipawn loss. -/
lemma stepRecord_scored_score (applyUci : String → String → Option String)
    (depth j : Nat) (rec : MoveRec) (orc : List (List String)) (s : MoveScoreR)
    (h : (stepRecord applyUci depth j rec orc).1 = StepRes.scored s) :
    ∃ c : Int, s.score = cplToMoveScore (c : ℚ) := by
  unfold stepRecord at h
  simp only [] at h
  split at h
  · simp at h
  split at h
  · simp at h
  split at h
  · simp at h
  split at h
  · simp at h
  split at h
  · simp at h
  simp only [StepRes.scored.injEq] at h
  exact ⟨_, by rw [← h]⟩

/-- Every score in the loop's output is the step mapping of some
centipawn loss. -/
lemma loopM_scores_shape (applyUci : String → String → Option String)
    (depth : Nat) (recs : List MoveRec) :
    ∀ (j : Nat) (orc : List (List String)) (scores : List MoveScoreR),
      (loopM applyUci depth recs j orc).1 = Except.ok scores →
      ∀ s ∈ scores, ∃ c : Int, s.score = cplToMoveScore (c : ℚ) := by
  induction recs with
  | nil =>
    intro j orc scores h s hs
    simp only [loopM] at h
    cases h
    simp at hs
  | cons r rs ih =>
    intro j orc scores h s hs
    rw [loopM_cons] at h
    cases hstep : (stepRecord applyUci depth j r orc).1 with
    | fail e => rw [hstep] at h; simp at h
    | skip =>
      rw [hstep] at h
      simp only [] at h
      exact ih (j + 1) (stepRecord applyUci depth j r orc).2.1 scores h s hs
    | scored sc =>
      rw [hstep] at h
      simp only [] at h
      cases hin : (loopM applyUci depth rs (j + 1)
          (stepRecord applyUci depth j r orc).2.1).1 with
      | error e => rw [hin] at h; simp [Except.map] at h
      | ok ss =>
        rw [hin] at h
        simp only [Except.map, Except.ok.injEq] at h
        rw [← h] at hs
        rcases List.mem_cons.mp hs with hs1 | hs2
        · rw [hs1]
          exact stepRecord_scored_score applyUci depth j r orc sc hstep
        · exact ih (j + 1) (stepRecord applyUci depth j r orc).2.1 ss hin s hs2

/-- Accuracy of a non-empty list of scores, each between one tenth and
one, lies between 10 and 100. -/
lemma accuracy_bounds_of_mem (l : List ℚ) (hne : l ≠ [])
    (hlo : ∀ x ∈ l, 1 / 10 ≤ x) (hhi : ∀ x ∈ l, x ≤ 1) :
    10 ≤ accuracy l ∧ accuracy l ≤ 100 := by
  have hlen : 0 < (l.length : ℚ) := by
    have : 0 < l.length := List.length_pos.mpr hne
    exact_mod_cast this
  have hs1 : (l.length : ℚ) * (1 / 10) ≤ l.sum := by
    simpa [nsmul_eq_mul] using List.card_nsmul_le_sum l (1 / 10 : ℚ) hlo
  have hs2 : l.sum ≤ (l.length : ℚ) * 1 := by
    simpa [nsmul_eq_mul] using List.sum_le_card_nsmul l (1 : ℚ) hhi
  have hdiv1 : (1 / 10 : ℚ) ≤ l.sum / (l.length : ℚ) := by
    rw [le_div_iff₀ hlen]
    linarith
  have hdiv2 : l.sum / (l.length : ℚ) ≤ 1 := by
    rw [div_le_one hlen]
    linarith
  unfold accuracy
  rw [if_neg (by simpa using hne), foldl_add_eq_sum]
  constructor <;> linarith

/-- Unfolding equation for the analysis model. -/
lemma analyzeM_eq (applyUci : String → String → Option String)
    (records : List MoveRec) (depth : Nat) (oracle : List (List String)) :
    analyzeM applyUci records depth oracle =
      match (waitScan (fun l => l = "readyok")
          ((popEp oracle).1.map trimStr)).1 with
      | none => (Except.error AErr.waitTimeout,
          [Ev.cmd "uci"] ++ readyTrace (waitScan (fun l => l = "readyok")
            ((popEp oracle).1.map trimStr)).2)
      | some _ =>
        match (loopM applyUci depth records 0 (popEp oracle).2).1 with
        | Except.error e => (Except.error e,
            [Ev.cmd "uci"] ++ readyTrace (waitScan (fun l => l = "readyok")
              ((popEp oracle).1.map trimStr)).2 ++
              (loopM applyUci depth records 0 (popEp oracle).2).2)
        | Except.ok scores =>
          (Except.ok (accuracy (scores.map MoveScoreR.score)),
            [Ev.cmd "uci"] ++ readyTrace (waitScan (fun l => l = "readyok")
              ((popEp oracle).1.map trimStr)).2 ++
              (loopM applyUci depth records 0 (popEp oracle).2).2 ++
              [Ev.cmd "quit"]) := rfl

/-- C9: a successful analysis yields either the empty-sequence default 0
or an accuracy between 10 and 100; in particular, whenever at least one
move was scored, the accuracy over the scored moves is at least 10 and at
most 100. -/
theorem accuracy_at_least_ten_when_scored
    (applyUci : String → String → Option String) (records : List MoveRec)
    (depth : Nat) (oracle : List (List String)) :
    (∀ a, (analyzeM applyUci records depth oracle).1 = Except.ok a →
      a = 0 ∨ (10 ≤ a ∧ a ≤ 100)) ∧
    (∀ scores,
      (loopM applyUci depth records 0 (popEp oracle).2).1 = Except.ok scores →
      scores ≠ [] →
      10 ≤ accuracy (scores.map MoveScoreR.score) ∧
      accuracy (scores.map MoveScoreR.score) ≤ 100) := by
  have part2 : ∀ scores,
      (loopM applyUci depth records 0 (popEp oracle).2).1 = Except.ok scores →
      scores ≠ [] →
      10 ≤ accuracy (scores.map MoveScoreR.score) ∧
      accuracy (scores.map MoveScoreR.score) ≤ 100 := by
    intro scores hok hne
    apply accuracy_bounds_of_mem
    · simpa using hne
    · intro x hx
      obtain ⟨s, hs, rfl⟩ := List.mem_map.mp hx
      obtain ⟨c, hc⟩ := loopM_scores_shape applyUci depth records 0
        (popEp oracle).2 scores hok s hs
      rw [hc]
      exact cplToMoveScore_ge _
    · intro x hx
      obtain ⟨s, hs, rfl⟩ := List.mem_map.mp hx
      obtain ⟨c, hc⟩ := loopM_scores_shape applyUci depth records 0
        (popEp oracle).2 scores hok s hs
      rw [hc]
      exact cplToMoveScore_le _
  refine ⟨?_, part2⟩
  intro a ha
  rw [analyzeM_eq] at ha
  split at ha
  · simp at ha
  split at ha
  · simp at ha
  rename_i scores heq
  simp only [Except.ok.injEq] at ha
  by_cases hsc : scores = []
  · left
    rw [← ha, hsc]
    rfl
  · right
    rw [← ha]
    exact part2 scores heq hsc

/-- Witness for C9 at a concrete one-move analysis scoring 100. -/
theorem accuracy_at_least_ten_when_scored_witness :
    10 ≤ accuracy ([sampleScore].map MoveScoreR.score) ∧
    accuracy ([sampleScore].map MoveScoreR.score) ≤ 100 :=
  (accuracy_at_least_ten_when_scored sampleApply [sampleRec] 18
      ([["readyok"]] ++ sampleOrcLoop)).2 [sampleScore] rfl (by decide)

/-! ## C4: engine termination across exit paths -/

/-- The quit command is not a position command. -/
lemma quit_ne_position (s : String) : "quit" ≠ "position fen " ++ s := by
  intro h
  have h1 : ("position fen " ++ s).data = "quit".data := by rw [h]
  rw [String.data_append] at h1
  have h2 : ("position fen ".data ++ s.data).head? = some 'p' := rfl
  rw [h1] at h2
  exact absurd h2 (by decide)

/-- The quit command is not a go command. -/
lemma quit_ne_go (s : String) : "quit" ≠ "go depth " ++ s := by
  intro h
  have h1 : ("go depth " ++ s).data = "quit".data := by rw [h]
  rw [String.data_append] at h1
  have h2 : ("go depth ".data ++ s.data).head? = some 'g' := rfl
  rw [h1] at h2
  exact absurd h2 (by decide)

/-- No request trace carries the quit command. -/
lemma quit_notin_requestTrace (f : String) (d : Nat) (ls : List String) :
    Ev.cmd "quit" ∉ requestTrace f d ls := by
  unfold requestTrace
  intro h
  simp only [List.mem_append, List.mem_cons, List.mem_map,
    List.not_mem_nil] at h
  rcases h with ((h | h | h | h) | ⟨l, _, h⟩) | (h | h)
  · exact quit_ne_position f (by injection h)
  · exact quit_ne_go (toString d) (by injection h)
  · cases h
  · cases h
  · cases h
  · cases h
  · cases h

/-- The trace component of the evaluation model is one request trace. -/
lemma evalPositionM_tr (fen : String) (depth : Nat) (ep : List String) :
    (evalPositionM fen depth ep).2 =
      requestTrace fen depth (evalScan none (ep.map trimStr)).2 := rfl

/-- No per-move step trace carries the quit command. -/
lemma quit_notin_step (applyUci : String → String → Option String)
    (depth i : Nat) (rec : MoveRec) (orc : List (List String)) :
    Ev.cmd "quit" ∉ (stepRecord applyUci depth i rec orc).2.2 := by
  unfold stepRecord
  simp only []
  split
  · exact quit_notin_requestTrace _ _ _
  split
  · exact quit_notin_requestTrace _ _ _
  split
  · exact quit_notin_requestTrace _ _ _
  split
  · intro h
    rcases List.mem_append.mp h with h | h
    · exact quit_notin_requestTrace _ _ _ h
    · rw [evalPositionM_tr] at h
      exact quit_notin_requestTrace _ _ _ h
  split <;>
  · intro h
    rcases List.mem_append.mp h with h | h
    rcases List.mem_append.mp h with h | h
    · exact quit_notin_requestTrace _ _ _ h
    · rw [evalPositionM_tr] at h
      exact quit_notin_requestTrace _ _ _ h
    · rw [evalPositionM_tr] at h
      exact quit_notin_requestTrace _ _ _ h

/-- No per-move loop trace carries the quit command. -/
lemma quit_notin_loop (applyUci : String → String → Option String)
    (depth : Nat) (recs : List MoveRec) :
    ∀ (j : Nat) (orc : List (List String)),
      Ev.cmd "quit" ∉ (loopM applyUci depth recs j orc).2 := by
  induction recs with
  | nil =>
    intro j orc
    simp [loopM]
  | cons r rs ih =>
    intro j orc
    rw [loopM_cons]
    cases hstep : (stepRecord applyUci depth j r orc).1 with
    | fail e =>
      simp only []
      exact quit_notin_step applyUci depth j r orc
    | skip =>
      simp only []
      intro h
      rcases List.mem_append.mp h with h | h
      · exact quit_notin_step applyUci depth j r orc h
      · exact ih (j + 1) (stepRecord applyUci depth j r orc).2.1 h
    | scored sc =>
      simp only []
      intro h
      rcases List.mem_append.mp h with h | h
      · exact quit_notin_step applyUci depth j r orc h
      · exact ih (j + 1) (stepRecord applyUci depth j r orc).2.1 h

/-- Neither the handshake command nor the readiness trace carries the
quit command. -/
lemma quit_notin_ready (c0 : List String) :
    Ev.cmd "quit" ∉ [Ev.cmd "uci"] ++ readyTrace c0 := by
  unfold readyTrace
  intro h
  simp only [List.mem_append, List.mem_cons, List.mem_map,
    List.not_mem_nil] at h
  rcases h with (h | h) | ((h | h | h) | ⟨l, _, h⟩) | (h | h)
  · exact absurd (by injection h : "quit" = "uci") (by decide)
  · cases h
  · exact absurd (by injection h : "quit" = "isready") (by decide)
  · cases h
  · cases h
  · cases h
  · cases h
  · cases h

/-- Counterexample to C4 as stated: on an analysis whose readiness
round-trip times out, the whole analysis fails and the quit command is
never sent, so the engine process is not terminated on that exit path. -/
theorem analyze_timeout_no_quit_counterexample :
    (analyzeM (fun _ _ => none) [] 18 []).1 = Except.error AErr.waitTimeout ∧
    Ev.cmd "quit" ∉ (analyzeM (fun _ _ => none) [] 18 []).2 := by
  refine ⟨rfl, by decide⟩

/-- C4 (amended): the model sends the quit command exactly on the
successful exit path of an analysis — quit() itself merely writes the
command and sleeps a fixed 50 ms, with no exit check and no forced kill,
and on failure exit paths quit is never sent. -/
theorem quit_sent_iff_analysis_succeeds
    (applyUci : String → String → Option String) (records : List MoveRec)
    (depth : Nat) (oracle : List (List String)) (res : Except AErr ℚ)
    (tr : List Ev)
    (h : analyzeM applyUci records depth oracle = (res, tr)) :
    Ev.cmd "quit" ∈ tr ↔ ∃ a, res = Except.ok a := by
  rw [analyzeM_eq] at h
  split at h
  · rw [Prod.mk.injEq] at h
    obtain ⟨hres, htr⟩ := h
    constructor
    · intro hq
      rw [← htr] at hq
      exact absurd hq (quit_notin_ready _)
    · intro ⟨a, ha⟩
      rw [← hres] at ha
      cases ha
  · split at h
    · rw [Prod.mk.injEq] at h
      obtain ⟨hres, htr⟩ := h
      constructor
      · intro hq
        rw [← htr] at hq
        rcases List.mem_append.mp hq with hq | hq
        · exact absurd hq (quit_notin_ready _)
        · exact absurd hq (quit_notin_loop applyUci depth records 0 _)
      · intro ⟨a, ha⟩
        rw [← hres] at ha
        cases ha
    · rw [Prod.mk.injEq] at h
      obtain ⟨hres, htr⟩ := h
      constructor
      · intro _
        exact ⟨_, hres.symm⟩
      · intro _
        rw [← htr]
        simp

/-- Witness for C4 at a concrete successful analysis. -/
theorem quit_sent_iff_analysis_succeeds_witness :
    Ev.cmd "quit" ∈ (analyzeM sampleApply [sampleRec] 18
        ([["readyok"]] ++ sampleOrcLoop)).2 ↔
      ∃ a, (analyzeM sampleApply [sampleRec] 18
        ([["readyok"]] ++ sampleOrcLoop)).1 = Except.ok a :=
  quit_sent_iff_analysis_succeeds sampleApply [sampleRec] 18
    ([["readyok"]] ++ sampleOrcLoop)
    (analyzeM sampleApply [sampleRec] 18 ([["readyok"]] ++ sampleOrcLoop)).1
    (analyzeM sampleApply [sampleRec] 18 ([["readyok"]] ++ sampleOrcLoop)).2
    rfl

/-! ## C8: single waiter and serialized requests -/

/-- The waiter discipline composes over trace concatenation. -/
lemma waiterRun_append (t1 t2 : List Ev) (b : Bool) :
    waiterRun (t1 ++ t2) b = (waiterRun t1 b).bind (fun b2 => waiterRun t2 b2) := by
  induction t1 generalizing b with
  | nil => simp [waiterRun]
  | cons e t ih =>
    cases e <;> simp only [List.cons_append, waiterRun] <;>
      (try split) <;> simp [ih]

/-- The serialization discipline composes over trace concatenation. -/
lemma serialRun_append (t1 t2 : List Ev) (b : Bool) :
    serialRun (t1 ++ t2) b = (serialRun t1 b).bind (fun b2 => serialRun t2 b2) := by
  induction t1 generalizing b with
  | nil => simp [serialRun]
  | cons e t ih =>
    cases e <;> simp only [List.cons_append, serialRun] <;>
      (try split) <;> (try split) <;> simp [ih]

/-- Delivered lines keep a registered waiter registered. -/
lemma waiterRun_mapline (ls : List String) :
    waiterRun (ls.map Ev.line) true = some true := by
  induction ls with
  | nil => rfl
  | cons l t ih => simp [waiterRun, ih]

/-- Every request trace takes the waiter from free back to free. -/
lemma waiterRun_requestTrace (f : String) (d : Nat) (ls : List String) :
    waiterRun (requestTrace f d ls) false = some false := by
  unfold requestTrace
  rw [waiterRun_append, waiterRun_append]
  simp [waiterRun, waiterRun_mapline]

/-- The readiness trace takes the waiter from free back to free. -/
lemma waiterRun_readyTrace (c0 : List String) :
    waiterRun (readyTrace c0) false = some false := by
  unfold readyTrace
  rw [waiterRun_append, waiterRun_append]
  simp [waiterRun, waiterRun_mapline]

/-- Delivered lines never violate serialization, and from an idle state
they leave the state idle. -/
lemma serialRun_mapline_exists (ls : List String) (b : Bool) :
    ∃ b2, serialRun (ls.map Ev.line) b = some b2 := by
  induction ls generalizing b with
  | nil => exact ⟨b, rfl⟩
  | cons l t ih =>
    simp only [List.map_cons, serialRun]
    split
    · exact ih false
    · exact ih b

/-- Delivered lines leave an idle serialization state idle. -/
lemma serialRun_mapline_false (ls : List String) :
    serialRun (ls.map Ev.line) false = some false := by
  induction ls with
  | nil => rfl
  | cons l t ih =>
    simp only [List.map_cons, serialRun]
    split <;> exact ih

/-- The lines consumed by a resolved wait end with the terminal line, so
they take the serialization state back to idle. -/
lemma serialRun_waitScan_consumed (ls : List String) (l : String)
    (h : (waitScan (fun x => startsWithStr x "bestmove") ls).1 = some l) :
    serialRun ((waitScan (fun x => startsWithStr x "bestmove") ls).2.map
      Ev.line) true = some false := by
  induction ls with
  | nil => cases h
  | cons x t ih =>
    by_cases hx : startsWithStr x "bestmove"
    · simp only [waitScan, hx, if_pos] at h ⊢
      simp [serialRun, hx]
    · simp only [waitScan, hx] at h ⊢
      simp only [Bool.false_eq_true, if_false] at h ⊢
      simp only [List.map_cons, serialRun, hx]
      exact ih h

/-- The lines consumed by a resolved evaluation end with the terminal
line, so they take the serialization state back to idle. -/
lemma serialRun_evalScan_consumed (ls : List String) (v : Int) :
    ∀ acc, (evalScan acc ls).1 = some v →
      serialRun ((evalScan acc ls).2.map Ev.line) true = some false := by
  induction ls with
  | nil => intro acc h; cases h
  | cons x t ih =>
    intro acc h
    by_cases hx : startsWithStr x "bestmove"
    · simp only [evalScan, hx, if_pos] at h ⊢
      simp [serialRun, hx]
    · simp only [evalScan, hx] at h ⊢
      simp only [Bool.false_eq_true, if_false] at h ⊢
      simp only [List.map_cons, serialRun, hx]
      exact ih (updateScore acc x) h

/-- A request trace whose wait resolved takes the serialization state
from idle back to idle. -/
lemma serialRun_requestTrace_resolved (f : String) (d : Nat)
    (ls : List String)
    (h : serialRun (ls.map Ev.line) true = some false) :
    serialRun (requestTrace f d ls) false = some false := by
  unfold requestTrace
  rw [serialRun_append, serialRun_append]
  simp [serialRun, go_not_position, go_starts_go, h]

/-- Any request trace leaves the serialization discipline unviolated. -/
lemma serialRun_requestTrace_isSome (f : String) (d : Nat)
    (ls : List String) :
    (serialRun (requestTrace f d ls) false).isSome := by
  unfold requestTrace
  rw [serialRun_append, serialRun_append]
  obtain ⟨b2, hb2⟩ := serialRun_mapline_exists ls true
  simp [serialRun, go_not_position, go_starts_go, hb2]

/-- A resolved evaluation's trace takes the serialization state from
idle back to idle. -/
lemma serialRun_evalPositionM (fen : String) (d : Nat) (ep : List String)
    (v : Int) (h : (evalPositionM fen d ep).1 = some v) :
    serialRun (evalPositionM fen d ep).2 false = some false := by
  rw [evalPositionM_tr]
  exact serialRun_requestTrace_resolved _ _ _
    (serialRun_evalScan_consumed (ep.map trimStr) v none h)

/-- Any evaluation trace keeps the serialization discipline
unviolated. -/
lemma serialRun_evalPositionM_isSome (fen : String) (d : Nat)
    (ep : List String) :
    (serialRun (evalPositionM fen d ep).2 false).isSome := by
  rw [evalPositionM_tr]
  exact serialRun_requestTrace_isSome _ _ _

/-- Any evaluation trace takes the waiter from free back to free. -/
lemma waiterRun_evalPositionM (fen : String) (d : Nat) (ep : List String) :
    waiterRun (evalPositionM fen d ep).2 false = some false := by
  rw [evalPositionM_tr]
  exact waiterRun_requestTrace _ _ _

/-- Every per-move step trace keeps the serialization discipline
unviolated, and a step that does not fail takes the state from idle back
to idle. -/
lemma serialRun_step_all (applyUci : String → String → Option String)
    (depth i : Nat) (rec : MoveRec) (orc : List (List String)) :
    (serialRun (stepRecord applyUci depth i rec orc).2.2 false).isSome ∧
    ((stepRecord applyUci depth i rec orc).1 = StepRes.skip →
      serialRun (stepRecord applyUci depth i rec orc).2.2 false = some false) ∧
    (∀ s, (stepRecord applyUci depth i rec orc).1 = StepRes.scored s →
      serialRun (stepRecord applyUci depth i rec orc).2.2 false = some false) := by
  unfold stepRecord
  simp only []
  split
  · refine ⟨serialRun_requestTrace_isSome _ _ _, fun h => ?_, fun s h => ?_⟩ <;>
      simp at h
  rename_i bestLine hwait
  have h1 := serialRun_waitScan_consumed _ _ hwait
  split
  · refine ⟨?_, fun _ => serialRun_requestTrace_resolved _ _ _ h1,
      fun s h => ?_⟩
    · rw [serialRun_requestTrace_resolved _ _ _ h1]; rfl
    · simp at h
  split
  · refine ⟨?_, fun _ => serialRun_requestTrace_resolved _ _ _ h1,
      fun s h => ?_⟩
    · rw [serialRun_requestTrace_resolved _ _ _ h1]; rfl
    · simp at h
  split
  · refine ⟨?_, fun h => ?_, fun s h => ?_⟩
    · rw [serialRun_append, serialRun_requestTrace_resolved _ _ _ h1]
      simp only [Option.some_bind]
      exact serialRun_evalPositionM_isSome _ _ _
    · simp at h
    · simp at h
  rename_i evalBest heval1
  split
  · refine ⟨?_, fun h => ?_, fun s h => ?_⟩
    · rw [serialRun_append, serialRun_append,
        serialRun_requestTrace_resolved _ _ _ h1]
      simp only [Option.some_bind]
      rw [serialRun_evalPositionM _ _ _ _ heval1]
      simp only [Option.some_bind]
      exact serialRun_evalPositionM_isSome _ _ _
    · simp at h
    · simp at h
  rename_i evalPlayed heval2
  have hfin : ∀ t1 t2 t3 : List Ev,
      serialRun t1 false = some false →
      serialRun t2 false = some false →
      serialRun t3 false = some false →
      serialRun (t1 ++ t2 ++ t3) false = some false := by
    intro t1 t2 t3 e1 e2 e3
    rw [serialRun_append, serialRun_append, e1]
    simp only [Option.some_bind]
    rw [e2]
    simp only [Option.some_bind]
    exact e3
  have hres := hfin _ _ _
    (serialRun_requestTrace_resolved rec.fromFen depth _ h1)
    (serialRun_evalPositionM _ _ _ _ heval1)
    (serialRun_evalPositionM _ _ _ _ heval2)
  exact ⟨by rw [hres]; rfl, fun _ => hres, fun s _ => hres⟩

/-- Every per-move step trace takes the waiter from free back to free. -/
lemma waiterRun_step (applyUci : String → String → Option String)
    (depth i : Nat) (rec : MoveRec) (orc : List (List String)) :
    waiterRun (stepRecord applyUci depth i rec orc).2.2 false = some false := by
  unfold stepRecord
  simp only []
  split
  · exact waiterRun_requestTrace _ _ _
  split
  · exact waiterRun_requestTrace _ _ _
  split
  · exact waiterRun_requestTrace _ _ _
  split
  · rw [waiterRun_append, waiterRun_requestTrace]
    simp only [Option.some_bind]
    exact waiterRun_evalPositionM _ _ _
  split <;>
  · rw [waiterRun_append, waiterRun_append, waiterRun_requestTrace]
    simp only [Option.some_bind]
    rw [waiterRun_evalPositionM]
    simp only [Option.some_bind]
    exact waiterRun_evalPositionM _ _ _

/-- The whole per-move loop takes the waiter from free back to free. -/
lemma waiterRun_loop (applyUci : String → String → Option String)
    (depth : Nat) (recs : List MoveRec) :
    ∀ (j : Nat) (orc : List (List String)),
      waiterRun (loopM applyUci depth recs j orc).2 false = some false := by
  induction recs with
  | nil => intro j orc; rfl
  | cons r rs ih =>
    intro j orc
    rw [loopM_cons]
    cases hstep : (stepRecord applyUci depth j r orc).1 with
    | fail e =>
      simp only []
      exact waiterRun_step applyUci depth j r orc
    | skip =>
      simp only []
      rw [waiterRun_append, waiterRun_step]
      simp only [Option.some_bind]
      exact ih (j + 1) _
    | scored sc =>
      simp only []
      rw [waiterRun_append, waiterRun_step]
      simp only [Option.some_bind]
      exact ih (j + 1) _

/-- The whole per-move loop keeps the serialization discipline
unviolated. -/
lemma serialRun_loop_isSome (applyUci : String → String → Option String)
    (depth : Nat) (recs : List MoveRec) :
    ∀ (j : Nat) (orc : List (List String)),
      (serialRun (loopM applyUci depth recs j orc).2 false).isSome := by
  induction recs with
  | nil => intro j orc; rfl
  | cons r rs ih =>
    intro j orc
    rw [loopM_cons]
    cases hstep : (stepRecord applyUci depth j r orc).1 with
    | fail e =>
      simp only []
      exact (serialRun_step_all applyUci depth j r orc).1
    | skip =>
      simp only []
      rw [serialRun_append,
        (serialRun_step_all applyUci depth j r orc).2.1 hstep]
      simp only [Option.some_bind]
      exact ih (j + 1) _
    | scored sc =>
      simp only []
      rw [serialRun_append,
        (serialRun_step_all applyUci depth j r orc).2.2 sc hstep]
      simp only [Option.some_bind]
      exact ih (j + 1) _

/-- The readiness trace leaves the serialization state idle. -/
lemma serialRun_readyTrace (c0 : List String) :
    serialRun (readyTrace c0) false = some false := by
  unfold readyTrace
  rw [serialRun_append, serialRun_append,
    show serialRun [Ev.cmd "isready", Ev.reg] false = some false from rfl]
  simp only [Option.some_bind]
  rw [serialRun_mapline_false]
  rfl

/-- C8: in every run of the analysis model, the session trace respects
the single-waiter discipline (a waiter is only registered when none is
present, and lines are delivered only to a registered waiter) and the
request-serialization discipline (no second go command is issued before
the prior request's terminal best-move line has been consumed). -/
theorem single_waiter_and_serialized_requests
    (applyUci : String → String → Option String) (records : List MoveRec)
    (depth : Nat) (oracle : List (List String)) :
    (waiterRun (analyzeM applyUci records depth oracle).2 false).isSome ∧
    (serialRun (analyzeM applyUci records depth oracle).2 false).isSome := by
  have huciW : waiterRun [Ev.cmd "uci"] false = some false := rfl
  have huciS : serialRun [Ev.cmd "uci"] false = some false := rfl
  rw [analyzeM_eq]
  split
  · constructor
    · rw [waiterRun_append, huciW]
      simp only [Option.some_bind]
      rw [waiterRun_readyTrace]
      rfl
    · rw [serialRun_append, huciS]
      simp only [Option.some_bind]
      rw [serialRun_readyTrace]
      rfl
  · split
    · constructor
      · rw [waiterRun_append, waiterRun_append, huciW]
        simp only [Option.some_bind]
        rw [waiterRun_readyTrace]
        simp only [Option.some_bind]
        rw [waiterRun_loop]
        rfl
      · rw [serialRun_append, serialRun_append, huciS]
        simp only [Option.some_bind]
        rw [serialRun_readyTrace]
        simp only [Option.some_bind]
        exact serialRun_loop_isSome applyUci depth records 0 (popEp oracle).2
    · constructor
      · rw [waiterRun_append, waiterRun_append, waiterRun_append, huciW]
        simp only [Option.some_bind]
        rw [waiterRun_readyTrace]
        simp only [Option.some_bind]
        rw [waiterRun_loop]
        simp only [Option.some_bind]
        rfl
      · rw [serialRun_append, serialRun_append, serialRun_append, huciS]
        simp only [Option.some_bind]
        rw [serialRun_readyTrace]
        simp only [Option.some_bind]
        have := serialRun_loop_isSome applyUci depth records 0 (popEp oracle).2
        obtain ⟨b2, hb2⟩ := Option.isSome_iff_exists.mp this
        rw [hb2]
        simp only [Option.some_bind]
        cases b2 <;> rfl


end ChessAnalysis
